import Mathlib

/-!
# Verification of the todo-export pipeline

Shallow embedding of the CSV conversion, S3 key generation and export
orchestration logic of the `aws-todo-export-lambda` repository
(`src/unnamed/part_000` and `src/unnamed/part_001`, sharing `src/types.ts`),
together with proofs of the specification's testable properties.
-/

/-! ## JSON values (argument domain of `JSON.stringify`) -/

mutual

/-- A JSON-like composite value (a JS object or array), as passed to
`JSON.stringify` by `convertToCSV` for values of `typeof === 'object'`.
Numbers are carried by their canonical JS text representation. -/
inductive Json where
  | null
  | bool (b : Bool)
  | num (repr : String)
  | str (s : String)
  | arr (elems : JsonList)
  | obj (fields : JsonFields)

/-- Elements of a JSON array. -/
inductive JsonList where
  | nil
  | cons (head : Json) (tail : JsonList)

/-- Fields of a JSON object, in insertion order. -/
inductive JsonFields where
  | nil
  | cons (key : String) (val : Json) (tail : JsonFields)

end

deriving instance DecidableEq for Json

/-- One character of JSON string-literal escaping, as performed by
`JSON.stringify` on the characters of a string value or object key. -/
def jsonEscapeChar (c : Char) : List Char :=
  if c = '"' then ['\\', '"']
  else if c = '\\' then ['\\', '\\']
  else if c = '\n' then ['\\', 'n']
  else if c = '\r' then ['\\', 'r']
  else if c = '\t' then ['\\', 't']
  else if c = '\x08' then ['\\', 'b']
  else if c = '\x0c' then ['\\', 'f']
  else if c.toNat < 32 then
    let hexDigit : Nat → Char := fun n =>
      if n < 10 then Char.ofNat (48 + n) else Char.ofNat (87 + n)
    ['\\', 'u', '0', '0', hexDigit (c.toNat / 16), hexDigit (c.toNat % 16)]
  else [c]

/-- JSON string-literal escaping of a whole string. -/
def jsonEscape (s : String) : String :=
  ⟨s.data.flatMap jsonEscapeChar⟩

mutual

/-- Compact serialization of a JSON value: the behaviour of
`JSON.stringify(value)` (no indentation argument). -/
def Json.stringify : Json → String
  | .null => "null"
  | .bool b => if b then "true" else "false"
  | .num r => r
  | .str s => "\"" ++ jsonEscape s ++ "\""
  | .arr es => "[" ++ JsonList.stringifyElems es ++ "]"
  | .obj fs => "\x7b" ++ JsonFields.stringifyFields fs ++ "\x7d"

/-- Comma-joined serialization of array elements. -/
def JsonList.stringifyElems : JsonList → String
  | .nil => ""
  | .cons e .nil => Json.stringify e
  | .cons e rest => Json.stringify e ++ "," ++ JsonList.stringifyElems rest

/-- Comma-joined serialization of object fields (`"key":value`). -/
def JsonFields.stringifyFields : JsonFields → String
  | .nil => ""
  | .cons k v .nil => "\"" ++ jsonEscape k ++ "\":" ++ Json.stringify v
  | .cons k v rest =>
      "\"" ++ jsonEscape k ++ "\":" ++ Json.stringify v ++ "," ++ JsonFields.stringifyFields rest

end

/-! ## Record values (`TodoItem` field values, `src/types.ts`) -/

/-- A field value of a `TodoItem`:
`string | number | boolean | null | undefined | object` (`src/types.ts`).
Numbers are carried by their canonical JS text representation
(the result of `String(value)`). -/
inductive Value where
  | null
  | undef
  | bool (b : Bool)
  | num (repr : String)
  | str (s : String)
  | composite (j : Json)
deriving DecidableEq

/-- A `TodoItem`: a JS object, i.e. a finite map from field names to values
in insertion order (`Object.keys` order). -/
abbrev Record := List (String × Value)

/-- Property access `item[header]`: the first binding of the key, or
`none` when the key is absent (JS `undefined`). -/
def getField (item : Record) (key : String) : Option Value :=
  match item with
  | [] => none
  | (k, v) :: rest => if k = key then some v else getField rest key

/-- `Object.keys(item)`. -/
def recordKeys (item : Record) : List String :=
  item.map Prod.fst

/-! ## CSV conversion (`convertToCSV`, `src/unnamed/part_000` lines 52-87) -/

/-- `Array.prototype.join(sep)`. -/
def joinWith (sep : String) : List String → String
  | [] => ""
  | [s] => s
  | s :: rest => s ++ sep ++ joinWith sep rest

/-- `stringValue.replace(/"/g, '""')` at the character level: the global
regex replacement doubles every literal quote character. -/
def escapeQuotesChars : List Char → List Char
  | [] => []
  | c :: rest =>
    if c = '"' then '"' :: '"' :: escapeQuotesChars rest
    else c :: escapeQuotesChars rest

/-- `stringValue.replace(/"/g, '""')`. -/
def escapeQuotes (s : String) : String :=
  ⟨escapeQuotesChars s.data⟩

/-- One header cell: the template `"${header}"` (line 70) — the header text
is wrapped in quotes with no escaping applied. -/
def headerCell (header : String) : String :=
  "\"" ++ header ++ "\""

/-- One data cell (lines 74-82): `item[header]` absent, `null` or
`undefined` yields `'""'`; otherwise `typeof value === 'object'` values are
`JSON.stringify`ed and all others pass through `String(value)`, and the
resulting text is quote-doubled and wrapped in quotes. -/
def cellValue : Option Value → String
  | none => "\"\""
  | some .null => "\"\""
  | some .undef => "\"\""
  | some (.bool b) => "\"" ++ escapeQuotes (if b then "true" else "false") ++ "\""
  | some (.num r) => "\"" ++ escapeQuotes r ++ "\""
  | some (.str s) => "\"" ++ escapeQuotes s ++ "\""
  | some (.composite j) => "\"" ++ escapeQuotes (Json.stringify j) ++ "\""

/-- `Set.prototype.add` on an insertion-ordered set represented as a
duplicate-free list. -/
def addKey (acc : List String) (k : String) : List String :=
  if k ∈ acc then acc else acc ++ [k]

/-- Lines 58-61: every key of every item is added to the `allKeys` set,
in iteration order. -/
def collectKeys (items : List Record) : List String :=
  items.foldl (fun acc item => (recordKeys item).foldl addKey acc) []

/-- The default comparison of `Array.prototype.sort()`: lexicographic
comparison of character (code-point) sequences. -/
def ltChars : List Char → List Char → Bool
  | [], [] => false
  | [], _ :: _ => true
  | _ :: _, [] => false
  | a :: as, b :: bs => if a < b then true else if b < a then false else ltChars as bs

/-- Strict code-point lexicographic order on strings. -/
def strLt (a b : String) : Prop := ltChars a.data b.data = true

/-- Reflexive code-point lexicographic order on strings (`a` does not come
strictly after `b`). -/
def strLe (a b : String) : Prop := ltChars b.data a.data = false

instance : DecidableRel strLt := fun a b => by unfold strLt; infer_instance

instance : DecidableRel strLe := fun a b => by unfold strLe; infer_instance

/-- Line 63: `Array.from(allKeys).sort()` — the collected key set sorted
ascending by the default (code-point lexicographic) string comparison. -/
def headersOf (items : List Record) : List String :=
  List.insertionSort strLe (collectKeys items)

/-- `convertToCSV` (`src/unnamed/part_000` lines 52-87): empty input yields
the sentinel text; otherwise the header row followed by one row per item,
rows joined by newline, with a trailing newline. -/
def convertToCSV (items : List Record) : String :=
  if items.length = 0 then "No data available\n"
  else
    let headers := headersOf items
    let headerRow := joinWith "," (headers.map headerCell)
    let dataRows := items.map fun item =>
      joinWith "," (headers.map fun header => cellValue (getField item header))
    joinWith "\n" (headerRow :: dataRows) ++ "\n"

/-- `convertToCSV` of the presigned-URL handler variant
(`src/unnamed/part_001` lines 53-88), transcribed separately. -/
def convertToCSVPre (items : List Record) : String :=
  if items.length = 0 then "No data available\n"
  else
    let headers := headersOf items
    let headerRow := joinWith "," (headers.map headerCell)
    let dataRows := items.map fun item =>
      joinWith "," (headers.map fun header => cellValue (getField item header))
    joinWith "\n" (headerRow :: dataRows) ++ "\n"

/-! ## Export orchestration (`exportTodoItems`, `uploadToS3`) -/

/-- `ExportResult` (`src/types.ts`). -/
structure ExportResult where
  success : Bool
  fileName : Option String := none
  s3Key : Option String := none
  downloadUrl : Option String := none
  error : Option String := none
deriving DecidableEq, Repr

/-- Which collaborator operations a run of `exportTodoItems` invoked. -/
structure Calls where
  converted : Bool := false
  uploadInvoked : Bool := false
  notifyInvoked : Bool := false
deriving DecidableEq, Repr

/-- The outcomes the environment supplies to one run of `exportTodoItems`:
the result of the DynamoDB scan, the ISO-8601 text of `new Date()` taken at
upload time, and the outcomes of the S3 write and the SNS publish. An
`Except.error` models a thrown exception carrying `error.message`. -/
structure Stages where
  bucket : String
  now : String
  scanResult : Except String (List Record)
  uploadWrite : Except String Unit
  notifyResult : Except String Unit

/-- `timestamp.replace(/[:.]/g, '-')` (line 93): every `:` and `.` of the
ISO timestamp becomes `-`. -/
def sanitizeTimestamp (iso : String) : String :=
  ⟨iso.data.map fun c => if c = ':' ∨ c = '.' then '-' else c⟩

/-- `uploadToS3` (`src/unnamed/part_000` lines 92-112): builds the
timestamped key, performs the S3 write, and returns the key together with
the public download URL. -/
def uploadToS3 (bucket now : String) (write : Except String Unit) :
    Except String (String × String) :=
  let timestamp := sanitizeTimestamp now
  let key := "todo-export-" ++ timestamp ++ ".csv"
  match write with
  | .error msg => .error msg
  | .ok _ => .ok (key, "https://" ++ bucket ++ ".s3.amazonaws.com/" ++ key)

/-- `exportTodoItems` (`src/unnamed/part_000` lines 146-183): scan, then
the zero-item early return, then convert / upload / notify inside the
`try`, with the `catch` turning any stage error into a failure result
carrying the error message. The second component records which stages were
invoked. -/
def exportTodoItems (st : Stages) : ExportResult × Calls :=
  match st.scanResult with
  | .error msg => ({ success := false, error := some msg }, {})
  | .ok todoItems =>
    if todoItems.length = 0 then
      ({ success := true, fileName := some "empty-export.csv",
         error := some "No items found in the table" }, {})
    else
      let _csvContent := convertToCSV todoItems
      match uploadToS3 st.bucket st.now st.uploadWrite with
      | .error msg =>
          ({ success := false, error := some msg },
           { converted := true, uploadInvoked := true })
      | .ok (key, downloadUrl) =>
        match st.notifyResult with
        | .error msg =>
            ({ success := false, error := some msg },
             { converted := true, uploadInvoked := true, notifyInvoked := true })
        | .ok _ =>
            ({ success := true, fileName := some key, s3Key := some key,
               downloadUrl := some downloadUrl },
             { converted := true, uploadInvoked := true, notifyInvoked := true })

/-! ## Specification-side definitions: cell text and CSV decoding

These follow the spec's wording ("splitting quoted, comma-separated,
doubled-quote-escaped cells"), to be compared with the encoder above. -/

/-- The text content a cell carries before quoting and escaping: empty for
an absent, `null` or `undefined` field, `String(value)` for scalars,
compact JSON for composites. -/
def cellText : Option Value → String
  | none => ""
  | some .null => ""
  | some .undef => ""
  | some (.bool b) => if b then "true" else "false"
  | some (.num r) => r
  | some (.str s) => s
  | some (.composite j) => Json.stringify j

/-- A fully quoted, quote-doubled cell for a given text content. -/
def wrapCell (content : String) : String :=
  "\"" ++ escapeQuotes content ++ "\""

/-- Cell scanner for one row, positioned inside a quoted cell (the opening
quote already consumed), with the reversed content accumulated so far.
A doubled quote is an escaped content quote; a single quote either closes
the final cell (at end of row) or, followed by `,"`, closes a cell and
opens the next one. -/
def parseCells : List Char → List Char → Option (List String)
  | [], _ => none
  | c :: rest, acc =>
    if c = '"' then
      match rest with
      | [] => some [acc.reverse.asString]
      | c2 :: rest2 =>
        if c2 = ',' then
          match rest2 with
          | [] => none
          | c3 :: rest3 =>
            if c3 = '"' then (parseCells rest3 []).map (acc.reverse.asString :: ·)
            else none
        else if c2 = '"' then parseCells rest2 ('"' :: acc)
        else none
    else parseCells rest (c :: acc)

/-- Decode one row of the document into its cell contents: the row must
start with an opening quote. -/
def parseRowChars (row : List Char) : Option (List String) :=
  match row with
  | [] => none
  | c :: rest => if c = '"' then parseCells rest [] else none

/-- Decode every row, failing if any row fails. -/
def parseRows : List (List Char) → Option (List (List String))
  | [] => some []
  | r :: rs =>
    match parseRowChars r, parseRows rs with
    | some cells, some rest => some (cells :: rest)
    | _, _ => none

/-- Split a character sequence at every newline character. -/
def splitLines : List Char → List (List Char)
  | [] => [[]]
  | c :: rest =>
    if c = '\n' then [] :: splitLines rest
    else
      match splitLines rest with
      | [] => [[c]]
      | l :: ls => (c :: l) :: ls

/-- Decode a produced document: require the trailing newline, split the
body into rows at newlines, and parse each row into its cell contents. -/
def decodeDocument (doc : String) : Option (List (List String)) :=
  match doc.data.getLast? with
  | none => none
  | some c =>
    if c = '\n' then parseRows (splitLines doc.data.dropLast)
    else none

/-- The spec's example record `{"id":"1","status":"pending"}` (section 8). -/
def exRecord1 : Record := [("id", Value.str "1"), ("status", Value.str "pending")]

/-- The spec's example record `{"id":"2","priority":"high"}` (section 8). -/
def exRecord2 : Record := [("id", Value.str "2"), ("priority", Value.str "high")]

/-- The spec's example nested value `{a:1}` (section 8). -/
def exNested : Json := Json.obj (JsonFields.cons "a" (Json.num "1") JsonFields.nil)

/-- A run whose scan finds no items. -/
def stEmpty : Stages :=
  { bucket := "test-bucket", now := "2024-01-15T10:30:45.123Z",
    scanResult := .ok [], uploadWrite := .ok (), notifyResult := .ok () }

/-- A run whose S3 write fails. -/
def stUploadFail : Stages :=
  { bucket := "test-bucket", now := "2024-01-15T10:30:45.123Z",
    scanResult := .ok [exRecord1], uploadWrite := .error "S3 write failed",
    notifyResult := .ok () }

/-- A fully successful run over the spec's example records. -/
def stOk : Stages :=
  { bucket := "test-bucket", now := "2024-01-15T10:30:45.123Z",
    scanResult := .ok [exRecord1, exRecord2], uploadWrite := .ok (),
    notifyResult := .ok () }

/-! ## Properties of the sort comparison -/

theorem ltChars_irrefl : ∀ cs : List Char, ltChars cs cs = false
  | [] => rfl
  | c :: cs => by simp [ltChars, lt_irrefl, ltChars_irrefl cs]

theorem ltChars_asymm : ∀ as bs : List Char,
    ltChars as bs = true → ltChars bs as = false := by
  intro as
  induction as with
  | nil =>
    intro bs h
    cases bs with
    | nil => simp [ltChars] at h
    | cons b bs => simp [ltChars]
  | cons a as ih =>
    intro bs h
    cases bs with
    | nil => simp [ltChars] at h
    | cons b bs =>
      simp only [ltChars] at h ⊢
      by_cases hab : a < b
      · rw [if_neg (lt_asymm hab), if_pos hab]
      · rw [if_neg hab] at h
        by_cases hba : b < a
        · rw [if_pos hba] at h
          exact absurd h (by simp)
        · rw [if_neg hba] at h
          rw [if_neg hba, if_neg hab]
          exact ih bs h

theorem ltChars_total_eq : ∀ as bs : List Char,
    ltChars as bs = false → ltChars bs as = false → as = bs := by
  intro as
  induction as with
  | nil =>
    intro bs h1 _
    cases bs with
    | nil => rfl
    | cons b bs => simp [ltChars] at h1
  | cons a as ih =>
    intro bs h1 h2
    cases bs with
    | nil => simp [ltChars] at h2
    | cons b bs =>
      simp only [ltChars] at h1 h2
      by_cases hab : a < b
      · rw [if_pos hab] at h1
        exact absurd h1 (by simp)
      · by_cases hba : b < a
        · rw [if_pos hba] at h2
          exact absurd h2 (by simp)
        · rw [if_neg hab, if_neg hba] at h1
          have hb : a = b := le_antisymm (le_of_not_lt hba) (le_of_not_lt hab)
          rw [hb, ih bs h1 (by rwa [if_neg hba, if_neg hab] at h2)]

theorem ltChars_trans : ∀ as bs cs : List Char,
    ltChars as bs = true → ltChars bs cs = true → ltChars as cs = true := by
  intro as
  induction as with
  | nil =>
    intro bs cs h1 h2
    cases bs with
    | nil => simp [ltChars] at h1
    | cons b bs =>
      cases cs with
      | nil => simp [ltChars] at h2
      | cons c cs => simp [ltChars]
  | cons a as ih =>
    intro bs cs h1 h2
    cases bs with
    | nil => simp [ltChars] at h1
    | cons b bs =>
      cases cs with
      | nil => simp [ltChars] at h2
      | cons c cs =>
        simp only [ltChars] at h1 h2 ⊢
        by_cases hab : a < b
        · by_cases hbc : b < c
          · rw [if_pos (lt_trans hab hbc)]
          · by_cases hcb : c < b
            · rw [if_neg hbc, if_pos hcb] at h2
              exact absurd h2 (by simp)
            · have hb : b = c := le_antisymm (le_of_not_lt hcb) (le_of_not_lt hbc)
              subst hb
              rw [if_pos hab]
        · by_cases hba : b < a
          · rw [if_neg hab, if_pos hba] at h1
            exact absurd h1 (by simp)
          · have hb : a = b := le_antisymm (le_of_not_lt hba) (le_of_not_lt hab)
            subst hb
            rw [if_neg hab, if_neg hba] at h1
            by_cases hbc : a < c
            · rw [if_pos hbc]
            · by_cases hcb : c < a
              · rw [if_neg hbc, if_pos hcb] at h2
                exact absurd h2 (by simp)
              · have hb2 : a = c := le_antisymm (le_of_not_lt hcb) (le_of_not_lt hbc)
                subst hb2
                rw [if_neg hbc, if_neg hcb] at h2
                rw [if_neg hbc, if_neg hcb]
                exact ih bs cs h1 h2

instance : IsTotal String strLe :=
  ⟨fun a b => by
    unfold strLe
    cases hx : ltChars b.data a.data with
    | false => exact Or.inl rfl
    | true => exact Or.inr (ltChars_asymm _ _ hx)⟩

instance : IsTrans String strLe :=
  ⟨fun a b c h1 h2 => by
    unfold strLe at h1 h2 ⊢
    cases hx : ltChars c.data a.data with
    | false => rfl
    | true =>
      cases hy : ltChars a.data b.data with
      | true => simp [ltChars_trans _ _ _ hx hy] at h2
      | false =>
        have hab : a.data = b.data := ltChars_total_eq _ _ hy h1
        rw [hab] at hx
        simp [hx] at h2⟩

instance : IsAntisymm String strLe :=
  ⟨fun a b h1 h2 => by
    unfold strLe at h1 h2
    exact String.ext (ltChars_total_eq _ _ h2 h1)⟩

theorem strLt_of_strLe_of_ne {a b : String} (h : strLe a b) (hne : a ≠ b) : strLt a b := by
  unfold strLe at h
  unfold strLt
  cases hx : ltChars a.data b.data with
  | true => rfl
  | false =>
    exact absurd (String.ext (ltChars_total_eq _ _ hx h)) hne

/-! ## Properties of the schema derivation -/

theorem mem_addKey {acc : List String} {k x : String} :
    x ∈ addKey acc k ↔ x ∈ acc ∨ x = k := by
  unfold addKey
  by_cases h : k ∈ acc
  · rw [if_pos h]
    exact ⟨Or.inl, fun hor => hor.elim id (fun hx => hx ▸ h)⟩
  · rw [if_neg h]
    simp

theorem nodup_addKey {acc : List String} {k : String} (h : acc.Nodup) :
    (addKey acc k).Nodup := by
  unfold addKey
  by_cases hk : k ∈ acc
  · rwa [if_pos hk]
  · rw [if_neg hk, ← List.concat_eq_append]
    exact h.concat hk

theorem mem_foldl_addKey : ∀ (ks acc : List String) (x : String),
    x ∈ ks.foldl addKey acc ↔ x ∈ acc ∨ x ∈ ks := by
  intro ks
  induction ks with
  | nil => simp
  | cons k ks ih =>
    intro acc x
    rw [List.foldl_cons, ih, mem_addKey, List.mem_cons]
    tauto

theorem nodup_foldl_addKey : ∀ (ks acc : List String),
    acc.Nodup → (ks.foldl addKey acc).Nodup := by
  intro ks
  induction ks with
  | nil => exact fun _ h => h
  | cons k ks ih => exact fun acc h => ih _ (nodup_addKey h)

theorem mem_collectKeys_aux : ∀ (items : List Record) (acc : List String) (x : String),
    x ∈ items.foldl (fun acc item => (recordKeys item).foldl addKey acc) acc
      ↔ x ∈ acc ∨ ∃ item ∈ items, x ∈ recordKeys item := by
  intro items
  induction items with
  | nil => simp
  | cons item items ih =>
    intro acc x
    rw [List.foldl_cons, ih, mem_foldl_addKey]
    simp only [List.mem_cons]
    constructor
    · rintro ((h | h) | ⟨i, hi, hx⟩)
      · exact Or.inl h
      · exact Or.inr ⟨item, Or.inl rfl, h⟩
      · exact Or.inr ⟨i, Or.inr hi, hx⟩
    · rintro (h | ⟨i, (rfl | hi), hx⟩)
      · exact Or.inl (Or.inl h)
      · exact Or.inl (Or.inr hx)
      · exact Or.inr ⟨i, hi, hx⟩

theorem mem_collectKeys {items : List Record} {x : String} :
    x ∈ collectKeys items ↔ ∃ item ∈ items, x ∈ recordKeys item := by
  unfold collectKeys
  rw [mem_collectKeys_aux]
  simp

theorem nodup_collectKeys (items : List Record) : (collectKeys items).Nodup := by
  have aux : ∀ (l : List Record) (acc : List String), acc.Nodup →
      (l.foldl (fun acc item => (recordKeys item).foldl addKey acc) acc).Nodup := by
    intro l
    induction l with
    | nil => exact fun _ h => h
    | cons item items ih => exact fun acc h => ih _ (nodup_foldl_addKey _ _ h)
  exact aux items [] List.nodup_nil

theorem collectKeys_perm {items1 items2 : List Record} (h : items1.Perm items2) :
    (collectKeys items1).Perm (collectKeys items2) := by
  refine (List.perm_ext_iff_of_nodup (nodup_collectKeys _) (nodup_collectKeys _)).mpr ?_
  intro x
  rw [mem_collectKeys, mem_collectKeys]
  exact ⟨fun ⟨i, hi, hx⟩ => ⟨i, h.mem_iff.mp hi, hx⟩,
         fun ⟨i, hi, hx⟩ => ⟨i, h.mem_iff.mpr hi, hx⟩⟩

theorem sorted_headersOf (items : List Record) : (headersOf items).Sorted strLe :=
  List.sorted_insertionSort strLe (collectKeys items)

theorem nodup_headersOf (items : List Record) : (headersOf items).Nodup :=
  (List.perm_insertionSort strLe (collectKeys items)).nodup_iff.mpr (nodup_collectKeys items)

theorem pairwise_strLt_headersOf (items : List Record) :
    (headersOf items).Pairwise strLt :=
  (sorted_headersOf items).imp₂ (fun _ _ hle hne => strLt_of_strLe_of_ne hle hne)
    (nodup_headersOf items)

theorem headersOf_congr_perm {items1 items2 : List Record} (h : items1.Perm items2) :
    headersOf items1 = headersOf items2 :=
  List.eq_of_perm_of_sorted
    ((List.perm_insertionSort strLe (collectKeys items1)).trans
      ((collectKeys_perm h).trans (List.perm_insertionSort strLe (collectKeys items2)).symm))
    (sorted_headersOf items1) (sorted_headersOf items2)

/-- C1: the schema (header list) computed inside `convertToCSV` is invariant
under permutation of the record list, has no duplicate field names, and is
in strictly ascending code-point lexicographic order. -/
theorem schema_perm_invariant_sorted_nodup :
    (∀ items1 items2 : List Record, items1.Perm items2 → headersOf items1 = headersOf items2)
    ∧ (∀ items : List Record, (headersOf items).Nodup)
    ∧ (∀ items : List Record, (headersOf items).Pairwise strLt) :=
  ⟨fun _ _ h => headersOf_congr_perm h, nodup_headersOf, pairwise_strLt_headersOf⟩

/-- Witness for C1 at the spec's example records, permuted. -/
theorem schema_perm_invariant_sorted_nodup_witness :
    headersOf [exRecord1, exRecord2] = headersOf [exRecord2, exRecord1]
    ∧ headersOf [exRecord2, exRecord1] = ["id", "priority", "status"]
    ∧ (["id", "priority", "status"] : List String).Pairwise strLt :=
  ⟨schema_perm_invariant_sorted_nodup.1 [exRecord1, exRecord2] [exRecord2, exRecord1]
      (List.Perm.swap exRecord2 exRecord1 []),
   by decide, by decide⟩

/-- C2: for a non-empty record list the produced document is the header row
followed by one row per record in input order, rows joined by newline with a
trailing newline; every row has exactly `len(schema)` cells in schema order,
and an absent, `null` or `undefined` field is encoded as the cell `""`. -/
theorem convertToCSV_rows_structure (items : List Record) (h : items ≠ []) :
    convertToCSV items =
      joinWith "\n"
        (joinWith "," ((headersOf items).map headerCell)
          :: items.map fun item =>
            joinWith "," ((headersOf items).map fun f => cellValue (getField item f))) ++ "\n"
    ∧ (items.map fun item =>
        joinWith "," ((headersOf items).map fun f => cellValue (getField item f))).length
        = items.length
    ∧ ((headersOf items).map headerCell).length = (headersOf items).length
    ∧ (∀ item : Record,
        ((headersOf items).map fun f => cellValue (getField item f)).length
          = (headersOf items).length)
    ∧ (∀ item : Record, ∀ f : String,
        getField item f = none ∨ getField item f = some Value.null
          ∨ getField item f = some Value.undef →
        cellValue (getField item f) = "\"\"") := by
  refine ⟨?_, by simp, by simp, fun item => by simp, ?_⟩
  · unfold convertToCSV
    rw [if_neg (by simpa [List.length_eq_zero] using h)]
  · rintro item f (hf | hf | hf) <;> rw [hf] <;> rfl

/-- Witness for C2 at the spec's example records. -/
theorem convertToCSV_rows_structure_witness :
    convertToCSV [exRecord1, exRecord2] =
      joinWith "\n"
        (joinWith "," ((headersOf [exRecord1, exRecord2]).map headerCell)
          :: [exRecord1, exRecord2].map fun item =>
            joinWith ","
              ((headersOf [exRecord1, exRecord2]).map fun f => cellValue (getField item f)))
        ++ "\n" :=
  (convertToCSV_rows_structure [exRecord1, exRecord2] (by decide)).1

theorem cellValue_eq_wrap : ∀ o : Option Value, cellValue o = wrapCell (cellText o)
  | none => by decide
  | some .null => by decide
  | some .undef => by decide
  | some (.bool _) => rfl
  | some (.num _) => rfl
  | some (.str _) => rfl
  | some (.composite _) => rfl

theorem escapeQuotesChars_eq_flatMap : ∀ cs : List Char,
    escapeQuotesChars cs = cs.flatMap fun c => if c = '"' then ['"', '"'] else [c] := by
  intro cs
  induction cs with
  | nil => rfl
  | cons c cs ih => by_cases h : c = '"' <;> simp [escapeQuotesChars, ih, h]

/-- C3 counterexample: a header cell whose field name contains a literal
quote is wrapped but not quote-doubled, so not every cell is escaped. -/
theorem cells_quoted_escaped_counterexample :
    convertToCSV [[("a\"b", Value.str "x")]] = "\"a\"b\"\n\"x\"\n"
    ∧ headerCell "a\"b" = "\"a\"b\""
    ∧ wrapCell "a\"b" = "\"a\"\"b\""
    ∧ "\"a\"b\"\n\"x\"\n" ≠ "\"a\"\"b\"\n\"x\"\n" := by decide

/-- C3 (amended): every data cell is wrapped in quote delimiters regardless
of content with each literal quote in its text doubled, and
`he said "hi"` encodes to `"he said ""hi"""`; header cells are wrapped
unconditionally but their content is not quote-escaped. -/
theorem cells_quoted_escaped :
    (∀ o : Option Value, cellValue o = "\"" ++ escapeQuotes (cellText o) ++ "\"")
    ∧ (∀ hdr : String, headerCell hdr = "\"" ++ hdr ++ "\"")
    ∧ (∀ s : String,
        (escapeQuotes s).data = s.data.flatMap fun c => if c = '"' then ['"', '"'] else [c])
    ∧ cellValue (some (Value.str "he said \"hi\"")) = "\"he said \"\"hi\"\"\"" :=
  ⟨fun o => cellValue_eq_wrap o, fun _ => rfl,
   fun s => escapeQuotesChars_eq_flatMap s.data, by decide⟩

/-- C4 counterexample: on a zero-record scan the code returns the file name
`empty-export.csv` and the message `No items found in the table`, not the
claimed `empty-export` / `No items found`. -/
theorem empty_export_outcome_counterexample :
    (exportTodoItems stEmpty).1 =
      { success := true, fileName := some "empty-export.csv", s3Key := none,
        downloadUrl := none, error := some "No items found in the table" }
    ∧ (exportTodoItems stEmpty).1 ≠
      { success := true, fileName := some "empty-export", s3Key := none,
        downloadUrl := none, error := some "No items found" } := by decide

/-- C4 (amended): a zero-record scan yields the success outcome with file
name `empty-export.csv` and message `No items found in the table`, and no
conversion, storage write or notification publish is invoked. -/
theorem empty_export_outcome (st : Stages) (h : st.scanResult = .ok []) :
    exportTodoItems st =
      ({ success := true, fileName := some "empty-export.csv", s3Key := none,
         downloadUrl := none, error := some "No items found in the table" },
       { converted := false, uploadInvoked := false, notifyInvoked := false }) := by
  unfold exportTodoItems
  rw [h]
  rfl

/-- Witness for C4 (amended) at a concrete zero-record run. -/
theorem empty_export_outcome_witness :
    exportTodoItems stEmpty =
      ({ success := true, fileName := some "empty-export.csv", s3Key := none,
         downloadUrl := none, error := some "No items found in the table" },
       { converted := false, uploadInvoked := false, notifyInvoked := false }) :=
  empty_export_outcome stEmpty rfl

/-- C5: a failing storage write yields a failure outcome carrying the
storage fault's message with no notification published, and for every
combination of stage outcomes the coordinator returns an `ExportResult`
value that is either a success or a failure carrying an error message. -/
theorem export_failure_containment (st : Stages) :
    (∀ (items : List Record) (msg : String),
        st.scanResult = .ok items → items.length ≠ 0 → st.uploadWrite = .error msg →
        (exportTodoItems st).1 =
          { success := false, fileName := none, s3Key := none, downloadUrl := none,
            error := some msg }
        ∧ (exportTodoItems st).2.notifyInvoked = false)
    ∧ ((exportTodoItems st).1.success = true
        ∨ ((exportTodoItems st).1.success = false ∧ (exportTodoItems st).1.error ≠ none)) := by
  constructor
  · intro items msg hscan hlen hup
    unfold exportTodoItems
    rw [hscan]
    dsimp only
    rw [if_neg hlen]
    unfold uploadToS3
    rw [hup]
    exact ⟨rfl, rfl⟩
  · obtain ⟨bucket, now, scan, up, notify⟩ := st
    unfold exportTodoItems
    dsimp only
    cases scan with
    | error msg => simp
    | ok items =>
      dsimp only
      by_cases h0 : items.length = 0
      · simp [h0]
      · rw [if_neg h0]
        unfold uploadToS3
        dsimp only
        cases up with
        | error msg => simp
        | ok u =>
          cases notify with
          | error msg => simp
          | ok v => simp

/-- Witness for C5 at a concrete run whose S3 write fails. -/
theorem export_failure_containment_witness :
    (exportTodoItems stUploadFail).1 =
      { success := false, fileName := none, s3Key := none, downloadUrl := none,
        error := some "S3 write failed" }
    ∧ (exportTodoItems stUploadFail).2.notifyInvoked = false :=
  (export_failure_containment stUploadFail).1 [exRecord1] "S3 write failed" rfl
    (by decide) rfl

/-- C8: the artifact key produced by the storage step is always the fixed
prefix `todo-export-` followed by the run's ISO timestamp with every `:`
and `.` replaced by `-`, followed by `.csv`; on a successful run this key
is the reported S3 key. -/
theorem artifact_key_format (bucket now : String) :
    (∀ (w : Except String Unit) (r : String × String),
        uploadToS3 bucket now w = .ok r →
        r.1 = "todo-export-" ++ sanitizeTimestamp now ++ ".csv")
    ∧ (sanitizeTimestamp now).data
        = now.data.map (fun c => if c = ':' ∨ c = '.' then '-' else c)
    ∧ ':' ∉ (sanitizeTimestamp now).data
    ∧ '.' ∉ (sanitizeTimestamp now).data
    ∧ (∀ (st : Stages) (items : List Record),
        st.scanResult = .ok items → st.uploadWrite = .ok () → st.notifyResult = .ok () →
        items.length ≠ 0 →
        (exportTodoItems st).1.s3Key
          = some ("todo-export-" ++ sanitizeTimestamp st.now ++ ".csv")) := by
  refine ⟨?_, rfl, ?_, ?_, ?_⟩
  · intro w r h
    cases w with
    | error m => simp [uploadToS3] at h
    | ok u =>
      simp only [uploadToS3] at h
      cases h
      rfl
  · intro hmem
    rcases List.mem_map.mp hmem with ⟨c, _, heq⟩
    by_cases hc : c = ':' ∨ c = '.'
    · rw [if_pos hc] at heq
      exact absurd heq (by decide)
    · rw [if_neg hc] at heq
      exact hc (Or.inl heq)
  · intro hmem
    rcases List.mem_map.mp hmem with ⟨c, _, heq⟩
    by_cases hc : c = ':' ∨ c = '.'
    · rw [if_pos hc] at heq
      exact absurd heq (by decide)
    · rw [if_neg hc] at heq
      exact hc (Or.inr heq)
  · intro st items hscan hup hnot hlen
    unfold exportTodoItems
    rw [hscan]
    dsimp only
    rw [if_neg hlen]
    unfold uploadToS3
    rw [hup]
    dsimp only
    rw [hnot]

/-- Witness for C8 at a concrete successful run. -/
theorem artifact_key_format_witness :
    (exportTodoItems stOk).1.s3Key
      = some ("todo-export-" ++ sanitizeTimestamp stOk.now ++ ".csv")
    ∧ ':' ∉ (sanitizeTimestamp stOk.now).data :=
  ⟨(artifact_key_format stOk.bucket stOk.now).2.2.2.2 stOk [exRecord1, exRecord2]
      rfl rfl rfl (by decide),
   (artifact_key_format stOk.bucket stOk.now).2.2.1⟩

/-- C6: a composite (object/array) value is serialized to its compact JSON
text and then quote-doubled and wrapped like any other cell; the object
`{a:1}` encodes to the cell `"{""a"":1}"`. -/
theorem composite_cell_json :
    (∀ j : Json, cellValue (some (Value.composite j))
        = "\"" ++ escapeQuotes (Json.stringify j) ++ "\"")
    ∧ Json.stringify exNested = "\x7b\"a\":1\x7d"
    ∧ cellValue (some (Value.composite exNested)) = "\"\x7b\"\"a\"\":1\x7d\"" :=
  ⟨fun _ => rfl, by decide, by decide⟩

/-- C9: the CSV encoders of the public-URL variant and the presigned-URL
variant are extensionally equal. -/
theorem convertToCSV_variants_equal : ∀ items : List Record,
    convertToCSV items = convertToCSVPre items := fun _ => rfl

/-- C10: an empty-string value encodes to the cell `""`, identical to the
encoding of an absent or `null` field, so two distinct record lists (one
with an empty-string value, one with that field absent) give the same
document, and the encoder is not injective. -/
theorem empty_string_cell_not_injective :
    cellValue (some (Value.str "")) = "\"\""
    ∧ cellValue none = "\"\""
    ∧ cellValue (some Value.null) = "\"\""
    ∧ convertToCSV
        [[("a", Value.str ""), ("b", Value.str "x")], [("a", Value.str "z"), ("b", Value.str "y")]]
        = convertToCSV
        [[("b", Value.str "x")], [("a", Value.str "z"), ("b", Value.str "y")]]
    ∧ [[("a", Value.str ""), ("b", Value.str "x")], [("a", Value.str "z"), ("b", Value.str "y")]]
        ≠ [[("b", Value.str "x")], [("a", Value.str "z"), ("b", Value.str "y")]]
    ∧ ¬ Function.Injective convertToCSV := by
  refine ⟨by decide, by decide, by decide, by decide, by decide, ?_⟩
  intro hinj
  have h := hinj
    (show convertToCSV
        [[("a", Value.str ""), ("b", Value.str "x")], [("a", Value.str "z"), ("b", Value.str "y")]]
        = convertToCSV
        [[("b", Value.str "x")], [("a", Value.str "z"), ("b", Value.str "y")]] from by decide)
  exact absurd h (by decide)

/-! ## Round-trip lemmas: parsing an encoded row -/

theorem parseCells_run_emit : ∀ (cs acc : List Char),
    parseCells (escapeQuotesChars cs ++ ['"']) acc = some [(acc.reverse ++ cs).asString] := by
  intro cs
  induction cs with
  | nil => intro acc; simp [escapeQuotesChars, parseCells]
  | cons c cs ih =>
    intro acc
    by_cases hc : c = '"'
    · subst hc
      rw [show escapeQuotesChars ('"' :: cs) = '"' :: '"' :: escapeQuotesChars cs from rfl]
      rw [List.cons_append, List.cons_append, parseCells.eq_def]
      simp [ih]
    · rw [show escapeQuotesChars (c :: cs) = c :: escapeQuotesChars cs from by
        simp [escapeQuotesChars, hc]]
      rw [List.cons_append, parseCells.eq_def]
      simp [hc, ih]

theorem parseCells_run_next : ∀ (cs acc rest : List Char),
    parseCells (escapeQuotesChars cs ++ '"' :: ',' :: '"' :: rest) acc
      = (parseCells rest []).map ((acc.reverse ++ cs).asString :: ·) := by
  intro cs
  induction cs with
  | nil => intro acc rest; simp [escapeQuotesChars, parseCells]
  | cons c cs ih =>
    intro acc rest
    by_cases hc : c = '"'
    · subst hc
      rw [show escapeQuotesChars ('"' :: cs) = '"' :: '"' :: escapeQuotesChars cs from rfl]
      rw [List.cons_append, List.cons_append, parseCells.eq_def]
      simp [ih]
    · rw [show escapeQuotesChars (c :: cs) = c :: escapeQuotesChars cs from by
        simp [escapeQuotesChars, hc]]
      rw [List.cons_append, parseCells.eq_def]
      simp [hc, ih]

theorem data_asString (s : String) : s.data.asString = s := rfl

theorem wrapCell_data (c : String) :
    (wrapCell c).data = '"' :: (escapeQuotesChars c.data ++ ['"']) := by
  show (("\"" ++ escapeQuotes c) ++ "\"").data = _
  rw [String.data_append, String.data_append]
  rfl

theorem joinWith_wrapCell_head (c : String) (cs : List String) :
    ∃ tl, (joinWith "," ((c :: cs).map wrapCell)).data = '"' :: tl := by
  cases cs with
  | nil =>
    exact ⟨escapeQuotesChars c.data ++ ['"'], by simp [joinWith, wrapCell_data]⟩
  | cons c2 rest =>
    refine ⟨escapeQuotesChars c.data ++ ['"'] ++ [',']
        ++ (joinWith "," ((c2 :: rest).map wrapCell)).data, ?_⟩
    show ((wrapCell c ++ ",") ++ joinWith "," ((c2 :: rest).map wrapCell)).data = _
    rw [String.data_append, String.data_append, wrapCell_data]
    simp

theorem parseRow_wrapped : ∀ (contents : List String), contents ≠ [] →
    parseRowChars (joinWith "," (contents.map wrapCell)).data = some contents := by
  intro contents
  induction contents with
  | nil => intro h; exact absurd rfl h
  | cons c rest ih =>
    intro _
    cases rest with
    | nil =>
      show parseRowChars (wrapCell c).data = some [c]
      rw [wrapCell_data, parseRowChars]
      simp [parseCells_run_emit, data_asString]
    | cons c2 rest2 =>
      obtain ⟨tl, htl⟩ := joinWith_wrapCell_head c2 rest2
      have hIH := ih (by simp)
      rw [htl] at hIH
      have hpc : parseCells tl [] = some (c2 :: rest2) := by
        rw [parseRowChars] at hIH
        simpa using hIH
      show parseRowChars ((wrapCell c ++ ",")
          ++ joinWith "," ((c2 :: rest2).map wrapCell)).data = some (c :: c2 :: rest2)
      rw [String.data_append, String.data_append, wrapCell_data, htl]
      rw [show (('"' :: (escapeQuotesChars c.data ++ ['"'])) ++ ",".data ++ '"' :: tl : List Char)
            = '"' :: (escapeQuotesChars c.data ++ '"' :: ',' :: '"' :: tl) from by simp]
      rw [parseRowChars]
      simp [parseCells_run_next, hpc, data_asString]

theorem splitLines_ne_nil : ∀ cs : List Char, splitLines cs ≠ [] := by
  intro cs
  induction cs with
  | nil => simp [splitLines]
  | cons c rest ih =>
    rw [splitLines]
    by_cases h : c = '\n'
    · simp [h]
    · rw [if_neg h]
      cases hs : splitLines rest with
      | nil => simp
      | cons l ls => simp

theorem splitLines_no_newline : ∀ cs : List Char, '\n' ∉ cs → splitLines cs = [cs] := by
  intro cs
  induction cs with
  | nil => intro _; rfl
  | cons c rest ih =>
    intro h
    have hc : c ≠ '\n' := fun hcn => h (hcn ▸ List.mem_cons_self c rest)
    have hr : '\n' ∉ rest := fun hm => h (List.mem_cons_of_mem c hm)
    rw [splitLines, if_neg hc, ih hr]

theorem splitLines_append_newline : ∀ cs ds : List Char, '\n' ∉ cs →
    splitLines (cs ++ '\n' :: ds) = cs :: splitLines ds := by
  intro cs
  induction cs with
  | nil => intro ds _; simp [splitLines]
  | cons c rest ih =>
    intro ds h
    have hc : c ≠ '\n' := fun hcn => h (hcn ▸ List.mem_cons_self c rest)
    have hr : '\n' ∉ rest := fun hm => h (List.mem_cons_of_mem c hm)
    rw [List.cons_append, splitLines, if_neg hc, ih ds hr]

theorem splitLines_joinWith : ∀ rows : List String, rows ≠ [] →
    (∀ r ∈ rows, '\n' ∉ r.data) →
    splitLines (joinWith "\n" rows).data = rows.map String.data := by
  intro rows
  induction rows with
  | nil => intro h; exact absurd rfl h
  | cons r rest ih =>
    intro _ hnl
    cases rest with
    | nil =>
      show splitLines r.data = [r.data]
      exact splitLines_no_newline r.data (hnl r (by simp))
    | cons r2 rest2 =>
      show splitLines ((r ++ "\n") ++ joinWith "\n" (r2 :: rest2)).data = _
      rw [String.data_append, String.data_append]
      rw [show (r.data ++ "\n".data ++ (joinWith "\n" (r2 :: rest2)).data : List Char)
            = r.data ++ '\n' :: (joinWith "\n" (r2 :: rest2)).data from by simp]
      rw [splitLines_append_newline _ _ (hnl r (by simp))]
      rw [ih (by simp) (fun x hx => hnl x (List.mem_cons_of_mem r hx))]
      rfl

theorem mem_escapeQuotesChars : ∀ (cs : List Char) (x : Char),
    x ∈ escapeQuotesChars cs → x ∈ cs ∨ x = '"' := by
  intro cs
  induction cs with
  | nil => intro x h; simp [escapeQuotesChars] at h
  | cons c rest ih =>
    intro x h
    by_cases hc : c = '"'
    · subst hc
      rw [show escapeQuotesChars ('"' :: rest) = '"' :: '"' :: escapeQuotesChars rest
          from rfl] at h
      rcases List.mem_cons.mp h with he | h2
      · exact Or.inr he
      · rcases List.mem_cons.mp h2 with he | h3
        · exact Or.inr he
        · rcases ih x h3 with hm | he
          · exact Or.inl (List.mem_cons_of_mem _ hm)
          · exact Or.inr he
    · rw [show escapeQuotesChars (c :: rest) = c :: escapeQuotesChars rest from by
        simp [escapeQuotesChars, hc]] at h
      rcases List.mem_cons.mp h with he | h2
      · exact Or.inl (he ▸ List.mem_cons_self c rest)
      · rcases ih x h2 with hm | he
        · exact Or.inl (List.mem_cons_of_mem _ hm)
        · exact Or.inr he

theorem mem_joinWith_data : ∀ (ss : List String) (sep : String) (x : Char),
    x ∈ (joinWith sep ss).data → x ∈ sep.data ∨ ∃ s ∈ ss, x ∈ s.data := by
  intro ss
  induction ss with
  | nil => intro sep x h; simp [joinWith] at h
  | cons s rest ih =>
    intro sep x h
    cases rest with
    | nil =>
      exact Or.inr ⟨s, by simp, h⟩
    | cons s2 rest2 =>
      rw [show joinWith sep (s :: s2 :: rest2)
            = (s ++ sep) ++ joinWith sep (s2 :: rest2) from rfl] at h
      rw [String.data_append, String.data_append] at h
      rcases List.mem_append.mp h with h1 | h2
      · rcases List.mem_append.mp h1 with hs | hsep
        · exact Or.inr ⟨s, by simp, hs⟩
        · exact Or.inl hsep
      · rcases ih sep x h2 with hsep | ⟨t, ht, hx⟩
        · exact Or.inl hsep
        · exact Or.inr ⟨t, List.mem_cons_of_mem s ht, hx⟩

theorem no_newline_wrapCell {content : String} (h : '\n' ∉ content.data) :
    '\n' ∉ (wrapCell content).data := by
  rw [wrapCell_data]
  intro hm
  rcases List.mem_cons.mp hm with he | hm2
  · exact absurd he (by decide)
  · rcases List.mem_append.mp hm2 with hE | hq
    · rcases mem_escapeQuotesChars _ _ hE with hc | hc
      · exact h hc
      · exact absurd hc (by decide)
    · simp at hq

theorem no_newline_row {cells : List String} (h : ∀ c ∈ cells, '\n' ∉ c.data) :
    '\n' ∉ (joinWith "," (cells.map wrapCell)).data := by
  intro hm
  rcases mem_joinWith_data _ _ _ hm with hsep | ⟨s, hs, hx⟩
  · simp at hsep
  · rcases List.mem_map.mp hs with ⟨c, hc, rfl⟩
    exact no_newline_wrapCell (h c hc) hx

theorem parseRows_wrapped : ∀ rowContents : List (List String),
    (∀ cs ∈ rowContents, cs ≠ []) →
    parseRows ((rowContents.map fun cs => joinWith "," (cs.map wrapCell)).map String.data)
      = some rowContents := by
  intro rowContents
  induction rowContents with
  | nil => intro _; rfl
  | cons cs rest ih =>
    intro h
    rw [List.map_cons, List.map_cons, parseRows]
    rw [parseRow_wrapped cs (h cs (by simp)), ih (fun c hc => h c (List.mem_cons_of_mem cs hc))]

theorem escapeQuotesChars_of_no_quote : ∀ cs : List Char, '"' ∉ cs → escapeQuotesChars cs = cs := by
  intro cs
  induction cs with
  | nil => intro _; rfl
  | cons c rest ih =>
    intro h
    have hc : c ≠ '"' := fun hcn => h (hcn ▸ List.mem_cons_self c rest)
    have hr : '"' ∉ rest := fun hm => h (List.mem_cons_of_mem c hm)
    rw [show escapeQuotesChars (c :: rest) = c :: escapeQuotesChars rest from by
      simp [escapeQuotesChars, hc]]
    rw [ih hr]

theorem headerCell_eq_wrapCell {hd : String} (h : '"' ∉ hd.data) :
    headerCell hd = wrapCell hd := by
  have he : escapeQuotes hd = hd := by
    unfold escapeQuotes
    rw [escapeQuotesChars_of_no_quote _ h]
  unfold headerCell wrapCell
  rw [he]

theorem convertToCSV_as_wrapped (items : List Record) (h : items.length ≠ 0)
    (hq : ∀ hd ∈ headersOf items, '"' ∉ hd.data) :
    convertToCSV items
      = joinWith "\n"
          ((headersOf items :: items.map fun item =>
              (headersOf items).map fun f => cellText (getField item f)).map
            fun cs => joinWith "," (cs.map wrapCell)) ++ "\n" := by
  unfold convertToCSV
  rw [if_neg h]
  refine congrArg (· ++ "\n") (congrArg (joinWith "\n") ?_)
  rw [List.map_cons]
  congr 1
  · exact congrArg (joinWith ",") (List.map_congr_left fun hd hm => headerCell_eq_wrapCell (hq hd hm))
  · rw [List.map_map]
    refine List.map_congr_left fun item _ => congrArg (joinWith ",") ?_
    rw [List.map_map]
    exact List.map_congr_left fun f _ => cellValue_eq_wrap _

/-- C7 counterexample: a scalar value containing a newline character breaks
the row splitting of the decoder, so the document does not decode back to
the original header list and values. -/
theorem decode_recovers_counterexample :
    convertToCSV [[("a", Value.str "x\ny")]] = "\"a\"\n\"x\ny\"\n"
    ∧ decodeDocument "\"a\"\n\"x\ny\"\n" = none
    ∧ (none : Option (List (List String))) ≠ some [["a"], ["x\ny"]] := by decide

/-- C7 (amended): for a non-empty record list with a non-empty schema whose
field names contain no quote and no newline characters and whose cell texts
contain no newline characters, decoding the produced document recovers the
header list and every cell's text, in particular the original text of every
scalar value present in a record. -/
theorem decode_recovers (items : List Record) (h1 : items ≠ [])
    (h2 : headersOf items ≠ [])
    (hq : ∀ hd ∈ headersOf items, '"' ∉ hd.data ∧ '\n' ∉ hd.data)
    (hc : ∀ item ∈ items, ∀ f ∈ headersOf items, '\n' ∉ (cellText (getField item f)).data) :
    decodeDocument (convertToCSV items)
      = some (headersOf items
          :: items.map fun item => (headersOf items).map fun f => cellText (getField item f))
    ∧ (∀ s : String, cellText (some (Value.str s)) = s) := by
  refine ⟨?_, fun _ => rfl⟩
  have hlen : items.length ≠ 0 := fun h0 => h1 (List.length_eq_zero.mp h0)
  rw [convertToCSV_as_wrapped items hlen (fun hd hm => (hq hd hm).1)]
  set rcs := headersOf items :: items.map fun item =>
      (headersOf items).map fun f => cellText (getField item f) with hrcs
  set rows := rcs.map fun cs => joinWith "," (cs.map wrapCell) with hrows
  have hnl : ∀ r ∈ rows, '\n' ∉ r.data := by
    intro r hr
    rw [hrows] at hr
    rcases List.mem_map.mp hr with ⟨cs, hcs, rfl⟩
    refine no_newline_row fun cell hcell => ?_
    rw [hrcs] at hcs
    rcases List.mem_cons.mp hcs with heq | hcs2
    · exact (hq cell (heq ▸ hcell)).2
    · rcases List.mem_map.mp hcs2 with ⟨item, hitem, rfl⟩
      rcases List.mem_map.mp hcell with ⟨f, hf, rfl⟩
      exact hc item hitem f hf
  have hne : ∀ cs ∈ rcs, cs ≠ [] := by
    intro cs hcs
    rw [hrcs] at hcs
    rcases List.mem_cons.mp hcs with heq | hcs2
    · exact heq ▸ h2
    · rcases List.mem_map.mp hcs2 with ⟨item, _, rfl⟩
      intro hmap
      exact h2 (List.map_eq_nil_iff.mp hmap)
  unfold decodeDocument
  rw [String.data_append]
  rw [show ("\n" : String).data = ['\n'] from rfl]
  rw [List.getLast?_concat]
  dsimp only
  rw [if_pos rfl, List.dropLast_concat]
  rw [splitLines_joinWith rows (by rw [hrows, hrcs]; simp) hnl]
  rw [hrows]
  exact parseRows_wrapped rcs hne

/-- Witness for C7 (amended) at the spec's example records. -/
theorem decode_recovers_witness :
    decodeDocument (convertToCSV [exRecord1, exRecord2])
      = some (headersOf [exRecord1, exRecord2]
          :: [exRecord1, exRecord2].map fun item =>
              (headersOf [exRecord1, exRecord2]).map fun f => cellText (getField item f)) :=
  (decode_recovers [exRecord1, exRecord2] (by decide) (by decide) (by decide) (by decide)).1
